import Mathlib

/-!
Shallow embedding of `src/python/tank/platform/engine.py` (the bundle
lifecycle / context-switch orchestrator of tk-core): the command registry
with collision handling (`Engine.register_command`), the app load pass
(`Engine.__load_apps`), the context-change transition
(`Engine.change_context`), teardown (`Engine.destroy` /
`Engine.__destroy_apps`), command matching (`Engine.get_matching_commands`)
and the module-level engine start (`_start_engine`).

Python dicts are modelled as association lists in insertion order with
in-place overwrite; Python objects with identity (app instances) live in a
heap keyed by a numeric object id.  Third-party app code (init_app bodies,
context-change hooks, destructors) is a parameter of the model: each
declared app carries the registrations its init performs and flags saying
which of its hooks raise.  Contexts, settings, environments and descriptors
are opaque values, modelled as numeric ids.
-/

namespace TkCore

set_option linter.unusedSectionVars false

section Dict

variable {κ α : Type} [DecidableEq κ]

def dictLookup : List (κ × α) → κ → Option α
  | [], _ => none
  | p :: rest, k => if p.1 = k then some p.2 else dictLookup rest k

def dictInsert : List (κ × α) → κ → α → List (κ × α)
  | [], k, v => [(k, v)]
  | p :: rest, k, v => if p.1 = k then (k, v) :: rest else p :: dictInsert rest k v

def dictErase : List (κ × α) → κ → List (κ × α)
  | [], _ => []
  | p :: rest, k => if p.1 = k then dictErase rest k else p :: dictErase rest k

def dictKeys (d : List (κ × α)) : List κ := d.map Prod.fst

end Dict

/-- One entry of the engine's command registry (engine.py lines 919-922): the
callback (opaque id; the metrics wrapper delegates to it unchanged), the
owning app stored under the "app" property, and the "prefix" property.
Properties not read by any verified routine (description, icon, the
legacy-dispatch flag) are omitted. -/
structure CmdEntry where
  callback : Nat
  app : Option Nat
  prefixProp : Option String
  deriving DecidableEq, Repr

/-- A live app object (tank.platform.application.Application as seen from
engine.py): its mutable attributes plus flags giving the behaviour of its
third-party hook code (whether pre_context_change / post_context_change /
destroy_app raise). -/
structure AppObj where
  instanceName : String
  path : String
  contextChangeAllowed : Bool
  ctx : Nat
  settings : Nat
  preRaises : Bool
  postRaises : Bool
  destroyRaises : Bool
  deriving DecidableEq, Repr

instance : Inhabited AppObj :=
  ⟨{ instanceName := "", path := "", contextChangeAllowed := false, ctx := 0,
     settings := 0, preRaises := false, postRaises := false, destroyRaises := false }⟩

/-- The state of one Engine object together with the object heap for its
apps: the fields of Engine.__init__ (engine.py lines 75-89) that the
verified routines read or write.  Contexts, environments, settings and
descriptors are opaque ids. -/
structure EngineState where
  heap : List (Nat × AppObj)
  applications : List (String × Nat)
  applicationPool : List (String × List (String × Nat))
  commands : List (String × CmdEntry)
  commandPool : List (String × CmdEntry)
  commandsThatNeedPrefixing : List String
  currentlyInitializingApp : Option Nat
  context : Nat
  envId : Nat
  descriptor : Nat
  contextChangeAllowed : Bool
  deriving DecidableEq, Repr

/-- Python attribute access on an app object id (total, with a default that
is never reached on well-formed states). -/
def heapFind (st : EngineState) (i : Nat) : AppObj :=
  (dictLookup st.heap i).getD default

/-- The duplicate check of register_command (engine.py lines 862-875): if
the name is taken by an entry that records its owning app, re-key that
entry to "owner-instance-name:name" with its "prefix" property set, delete
the unprefixed key and remember the name as needing prefixing.  Returns
the updated registry and needs-prefixing list. -/
def collisionRename (st : EngineState) (name : String) :
    List (String × CmdEntry) × List String :=
  match dictLookup st.commands name with
  | some existing =>
    match existing.app with
    | some owner =>
      let pfxName := (heapFind st owner).instanceName
      let renamed := dictInsert st.commands (pfxName ++ ":" ++ name)
        { existing with prefixProp := some pfxName }
      (dictErase renamed name, st.commandsThatNeedPrefixing ++ [name])
    | none => (st.commands, st.commandsThatNeedPrefixing)
  | none => (st.commands, st.commandsThatNeedPrefixing)

/-- Engine.register_command (engine.py lines 844-922).

The properties dict always has its "prefix" slot reset to None (line 848);
the "app" property is the currently initializing app when one is set
(lines 851-853), else whatever the caller passed.  A name marked as
needing prefixing makes the new registration itself prefixed when it has
an owning app (lines 877-883).  The callback is stored behind a metrics
wrapper that delegates to it (lines 909-917), modelled as the callback
itself. -/
def register_command (st : EngineState) (name : String) (callback : Nat)
    (propsApp0 : Option Nat) : EngineState :=
  let propsApp : Option Nat :=
    match st.currentlyInitializingApp with
    | some a => some a
    | none => propsApp0
  let cm := collisionRename st name
  let finalPair : String × Option String :=
    if name ∈ cm.2 then
      match propsApp with
      | some a =>
        ((heapFind st a).instanceName ++ ":" ++ name,
         some (heapFind st a).instanceName)
      | none => (name, none)
    else (name, none)
  let newEntry : CmdEntry := { callback := callback, app := propsApp, prefixProp := finalPair.2 }
  { st with commands := dictInsert cm.1 finalPair.1 newEntry,
            commandsThatNeedPrefixing := cm.2 }

/-- A default app object for building test states. -/
def mkApp (iname pth : String) : AppObj :=
  { instanceName := iname, path := pth, contextChangeAllowed := true, ctx := 0,
    settings := 0, preRaises := false, postRaises := false, destroyRaises := false }

/-- A default engine state for building test states. -/
def mkState : EngineState :=
  { heap := [], applications := [], applicationPool := [], commands := [],
    commandPool := [], commandsThatNeedPrefixing := [], currentlyInitializingApp := none,
    context := 0, envId := 0, descriptor := 0, contextChangeAllowed := true }

def heapSet (h : List (Nat × AppObj)) (i : Nat) (a : AppObj) : List (Nat × AppObj) :=
  dictInsert h i a

/-- Three register_command calls for the same name from three different
owning component instances A, B and C (each made during that component's
init phase), on an engine whose command registry is empty. -/
def registerFooThrice (pfx : List String) (cb1 cb2 cb3 : Nat) : EngineState :=
  let st0 := { mkState with
    heap := [(0, mkApp "A" "pA"), (1, mkApp "B" "pB"), (2, mkApp "C" "pC")],
    commandsThatNeedPrefixing := pfx }
  let st1 := register_command { st0 with currentlyInitializingApp := some 0 } "Foo" cb1 none
  let st2 := register_command { st1 with currentlyInitializingApp := some 1 } "Foo" cb2 none
  register_command { st2 with currentlyInitializingApp := some 2 } "Foo" cb3 none

/-- One register_command call performed by an app's init_app body. -/
structure RegCall where
  name : String
  callback : Nat
  deriving DecidableEq, Repr

/-- Everything one iteration of the load pass (Engine.__load_apps,
engine.py lines 1916-2098) consumes for one app instance declared in the
environment: the outcomes of the external descriptor and validation
services for it, and the behaviour of its third-party constructor and
init_app body. -/
structure AppDecl where
  instName : String
  existsLocal : Bool
  validationOk : Bool
  path : String
  settings : Nat
  ccAllowed : Bool
  constructRaises : Bool
  initRegs : List RegCall
  initRaises : Bool
  newAppId : Nat
  newPreRaises : Bool
  newPostRaises : Bool
  newDestroyRaises : Bool
  deriving DecidableEq, Repr

/-- Lines 2004-2007: pull the persisted commands owned by the reused app
object back into the active registry, under their persisted names. -/
def restoreAppCommands (pool : List (String × CmdEntry)) (appId : Nat)
    (cmds : List (String × CmdEntry)) : List (String × CmdEntry) :=
  pool.foldl (fun acc p => if p.2.app = some appId then dictInsert acc p.1 p.2 else acc) cmds

/-- Lines 2048-2053: run init_app with __currently_initializing_app set to
the new app, resetting it in the finally clause.  The body of init_app is
third-party code, given as the list of register_command calls it makes. -/
def runInitRegs (st : EngineState) (appId : Nat) (regs : List RegCall) : EngineState :=
  let st1 := regs.foldl
    (fun s r => register_command s r.name r.callback none)
    { st with currentlyInitializingApp := some appId }
  { st1 with currentlyInitializingApp := none }

/-- Lines 2083-2098, executed at the end of every construction-path
iteration of the load loop: re-pool every active app that allows context
changes, keyed by its own install path but by the instance name of the
app currently being processed (the outer loop variable app_instance_name,
line 2094), and snapshot the whole active registry into the persistent
command pool (lines 2097-2098). -/
def poolUpdate (st : EngineState) (outerInstName : String) : EngineState :=
  let appPool := st.applications.foldl
    (fun pool p =>
      let a := heapFind st p.2
      if a.contextChangeAllowed then
        dictInsert pool a.path (dictInsert ((dictLookup pool a.path).getD []) outerInstName p.2)
      else pool)
    st.applicationPool
  let cmdPool := st.commands.foldl (fun pool p => dictInsert pool p.1 p.2) st.commandPool
  { st with applicationPool := appPool, commandPool := cmdPool }

/-- Lines 2032-2063: full construction of a declared app.  On success the
app is recorded in the active map; a raising constructor or init_app is
caught and the app is skipped -- but commands that init_app registered
before raising stay in the registry. -/
def constructApp (st : EngineState) (d : AppDecl) : EngineState :=
  if d.constructRaises then st
  else
    let newApp : AppObj :=
      { instanceName := d.instName, path := d.path, contextChangeAllowed := d.ccAllowed,
        ctx := st.context, settings := d.settings, preRaises := d.newPreRaises,
        postRaises := d.newPostRaises, destroyRaises := d.newDestroyRaises }
    let st1 := runInitRegs { st with heap := heapSet st.heap d.newAppId newApp }
      d.newAppId d.initRegs
    if d.initRaises then st1
    else { st1 with applications := dictInsert st1.applications d.instName d.newAppId }

/-- The reuse check of lines 1983-1987: the pooled app for (install path,
instance name), consulted only during a context change. -/
def poolHit (reuse : Bool) (oldCtx : Option Nat) (st : EngineState) (d : AppDecl) :
    Option Nat :=
  if reuse && oldCtx.isSome then
    match dictLookup st.applicationPool d.path with
    | some inner => dictLookup inner d.instName
    | none => none
  else none

/-- The in-place update of a pooled app (lines 1988-2007): swap its context,
settings and instance name, and pull its persisted commands back into the
registry. -/
def reuseApp (st : EngineState) (d : AppDecl) (appId : Nat) : EngineState :=
  let a0 := heapFind st appId
  let a1 := { a0 with ctx := st.context, settings := d.settings, instanceName := d.instName }
  let st1 := { st with heap := heapSet st.heap appId a1 }
  { st1 with commands := restoreAppCommands st1.commandPool appId st1.commands }

/-- One iteration of the declared-apps loop of __load_apps (lines
1916-2098) for the declaration d.  The in-place update of a pooled app
(lines 1988-2030) is wrapped in a try/except whose failure is modelled at
its last step, the post_context_change hook: on failure the mutations
already made (context, settings, instance name, restored commands) are
kept and the app is rebuilt through the normal construction path. -/
def loadAppStep (reuse : Bool) (oldCtx : Option Nat) (st : EngineState) (d : AppDecl) :
    EngineState :=
  if !d.existsLocal then st
  else if !d.validationOk then st
  else
    match poolHit reuse oldCtx st d with
    | some appId =>
      let st2 := reuseApp st d appId
      if (heapFind st appId).postRaises then
        poolUpdate (constructApp st2 d) d.instName
      else
        { st2 with applications := dictInsert st2.applications d.instName appId }
    | none => poolUpdate (constructApp st d) d.instName

/-- Engine.__load_apps (engine.py lines 1891-2098): clear the active app
map and registry -- the persistent pools survive (lines 1904-1914; the
reload-command helper called on line 1914 iterates the just-cleared app
map and so registers nothing) -- then process every declared app in
order. -/
def load_apps (reuse : Bool) (oldCtx : Option Nat) (decls : List AppDecl)
    (st : EngineState) : EngineState :=
  decls.foldl (loadAppStep reuse oldCtx) { st with applications := [], commands := [] }

/-- The exception classes the embedded routines can let escape. -/
inductive PyErr where
  | tankError
  | engineInitError
  | contextChangeNotSupported
  | attributeError
  | appException
  deriving DecidableEq, Repr

/-- The apps visited by the pre_context_change loop of change_context
(lines 735-744): every entry of the persistent pool, in outer (path) then
inner (instance) order. -/
def poolApps (st : EngineState) : List Nat :=
  (st.applicationPool.map (fun p => p.2.map Prod.snd)).flatten

/-- Result of _get_env_and_descriptor_for_engine for a target context
(line 696): the new environment (its id and its declared apps) and the
engine descriptor resolved from it. -/
structure EnvResolution where
  envId : Nat
  descriptor : Nat
  decls : List AppDecl
  deriving DecidableEq, Repr

/-- Engine.change_context (engine.py lines 672-775).  Returns the state at
the end of the call together with the exception that escaped it, if any.
The engine-level and core-level hooks are engine or configuration code,
modelled as non-raising; each pooled app's pre_context_change call (lines
735-744) is not wrapped in any try/except, so a raising app hook escapes
before any engine state is mutated; all later steps (the load pass, the
post hooks, __run_post_engine_inits at lines 2142-2154) catch per-app
exceptions internally. -/
def change_context (st : EngineState) (res : EnvResolution) (newCtx : Nat) :
    EngineState × Option PyErr :=
  if !st.contextChangeAllowed then (st, some PyErr.contextChangeNotSupported)
  else if res.descriptor ≠ st.descriptor then (st, some PyErr.contextChangeNotSupported)
  else if (poolApps st).any (fun i => (heapFind st i).preRaises) then
    (st, some PyErr.appException)
  else
    let oldCtx := st.context
    let st1 := { st with envId := res.envId, context := newCtx }
    (load_apps true (some oldCtx) res.decls st1, none)

/-- Engine.destroy (engine.py lines 630-663) acting on the global
current-engine slot (g_current_engine, lines 2160-2178).  Framework
teardown and destroy_engine are engine or core code, modelled as
non-raising; __destroy_apps (lines 2114-2122) calls each app's destroy_app
with no try/except, so a raising destructor escapes destroy before
set_current_engine(None) on line 644 is reached, leaving the slot as it
was. -/
def destroy (st : EngineState) (slot : Option Nat) : Option Nat × Option PyErr :=
  if st.applications.any (fun p => (heapFind st p.2).destroyRaises) then
    (slot, some PyErr.appException)
  else (none, none)

/-- A command selector as consumed by get_matching_commands. -/
structure Selector where
  appInstance : String
  name : String
  deriving DecidableEq, Repr

/-- Lines 1080-1088: group the registry's commands by owning instance name,
skipping entries that record no owning app. -/
def commandsByInstance (st : EngineState) : List (String × List (String × Nat)) :=
  st.commands.foldl
    (fun acc p =>
      match p.2.app with
      | none => acc
      | some appId =>
        let iname := (heapFind st appId).instanceName
        dictInsert acc iname (((dictLookup acc iname).getD []) ++ [(p.1, p.2.callback)]))
    []

/-- Engine.get_matching_commands (engine.py lines 1049-1112).  An empty
selector name matches every command of the instance (line 1101).  For a
selector with no match the code evaluates self._engine.log_warning (line
1106); the Engine class never assigns an attribute named _engine, so the
call raises AttributeError instead of logging, modelled as an error
result. -/
def get_matching_commands (st : EngineState) (sels : List Selector) :
    Except PyErr (List (String × String × Nat)) :=
  let byInst := commandsByInstance st
  sels.foldlM
    (fun acc sel =>
      let instCmds := (dictLookup byInst sel.appInstance).getD []
      let matching := (instCmds.filter
        (fun p => sel.name == "" || sel.name == p.1)).map
        (fun p => (sel.appInstance, p.1, p.2))
      if matching.isEmpty then Except.error PyErr.attributeError
      else pure (acc ++ matching))
    []

/-- Inputs to an engine start that the already-running guard does not
consult. -/
structure StartInput where
  existsLocal : Bool
  newEngineId : Nat
  deriving DecidableEq, Repr

/-- The module-level _start_engine (engine.py lines 2294-2343) acting on
the global current-engine slot, with the over-indented block at lines
2320-2322 put back at its enclosing indentation: as written the source
file is not syntactically valid Python (IndentationError at line 2321), so
this embeds the evident intended control flow.  The first step (lines
2307-2310) raises a plain TankError when an engine is already current,
before anything is mutated; construction steps after the exists_local
check are external and modelled as succeeding, ending in
set_current_engine(engine) (line 2334). -/
def start_engine_model (slot : Option Nat) (inp : StartInput) : Option Nat × Option PyErr :=
  match slot with
  | some e => (some e, some PyErr.tankError)
  | none =>
    if !inp.existsLocal then (none, some PyErr.engineInitError)
    else (some inp.newEngineId, none)

/-- An engine state with a single active app whose destructor raises. -/
def destroyFailSt : EngineState :=
  { mkState with
    heap := [(0, { mkApp "a1" "p1" with destroyRaises := true })],
    applications := [("a1", 0)] }

/-- An engine state whose one pooled app has a raising pre_context_change
hook, with preconditions for a context change satisfied. -/
def preHookFailSt : EngineState :=
  { mkState with
    descriptor := 4,
    heap := [(0, { mkApp "a1" "p1" with preRaises := true })],
    applicationPool := [("p1", [("a1", 0)])] }

/-- A well-behaved declared app at path px with instance name ix. -/
def declX : AppDecl :=
  { instName := "ix", existsLocal := true, validationOk := true, path := "px",
    settings := 0, ccAllowed := true, constructRaises := false, initRegs := [],
    initRaises := false, newAppId := 0, newPreRaises := false, newPostRaises := false,
    newDestroyRaises := false }

/-- A second well-behaved declared app at path py with instance name iy. -/
def declY : AppDecl :=
  { declX with instName := "iy", path := "py", newAppId := 1 }

/-- A declared app whose init_app registers a command and then raises. -/
def declFail : AppDecl :=
  { declX with
    instName := "ib", path := "pb", newAppId := 3,
    initRegs := [⟨"Cmd", 5⟩], initRaises := true }

/-- The persisted command of the pooled app ra. -/
def cmdX : CmdEntry := { callback := 1, app := some 0, prefixProp := none }

/-- An engine mid-session: app ra (object id 0, install path p) is pooled
and its registered command X is persisted in the command pool. -/
def reuseSt : EngineState :=
  { mkState with
    descriptor := 4,
    heap := [(0, mkApp "ra" "p")],
    applicationPool := [("p", [("ra", 0)])],
    commandPool := [("X", cmdX)] }

/-- The declaration under which ra is reused during the context change. -/
def declRa : AppDecl :=
  { instName := "ra", existsLocal := true, validationOk := true, path := "p",
    settings := 0, ccAllowed := true, constructRaises := false, initRegs := [],
    initRaises := false, newAppId := 5, newPreRaises := false, newPostRaises := false,
    newDestroyRaises := false }

/-- A fresh app nb whose init_app registers the colliding name X. -/
def declNb : AppDecl :=
  { declRa with
    instName := "nb", path := "q", newAppId := 1,
    initRegs := [⟨"X", 2⟩] }

/-- A declared app loads successfully through the construction path. -/
def appLoadOk (d : AppDecl) : Bool :=
  d.existsLocal && d.validationOk && !d.constructRaises && !d.initRaises

/-- The registry/pool invariant maintained by the load pass: both dicts
have distinct keys and every active registry entry is persisted in the
command pool under the same name. -/
def CmdInv (st : EngineState) : Prop :=
  (dictKeys st.commands).Nodup ∧ (dictKeys st.commandPool).Nodup ∧
  ∀ k c, dictLookup st.commands k = some c → dictLookup st.commandPool k = some c

section DictLemmas

variable {κ α : Type} [DecidableEq κ]

@[simp] theorem dictKeys_nil : dictKeys ([] : List (κ × α)) = [] := rfl

@[simp] theorem dictKeys_cons (p : κ × α) (rest : List (κ × α)) :
    dictKeys (p :: rest) = p.1 :: dictKeys rest := rfl

theorem dictLookup_dictInsert_self (d : List (κ × α)) (k : κ) (v : α) :
    dictLookup (dictInsert d k v) k = some v := by
  induction d with
  | nil => simp [dictInsert, dictLookup]
  | cons p rest ih =>
    by_cases h : p.1 = k
    · simp [dictInsert, dictLookup, h]
    · simp [dictInsert, dictLookup, h, ih]

theorem dictLookup_dictInsert_ne (d : List (κ × α)) {k k' : κ} (v : α) (h : k' ≠ k) :
    dictLookup (dictInsert d k v) k' = dictLookup d k' := by
  have hkk : ¬k = k' := fun he => h he.symm
  induction d with
  | nil => simp [dictInsert, dictLookup, hkk]
  | cons p rest ih =>
    by_cases hp : p.1 = k
    · subst hp
      simp [dictInsert, dictLookup, hkk]
    · by_cases hp' : p.1 = k'
      · simp only [dictInsert, if_neg hp, dictLookup, if_pos hp']
      · simp [dictInsert, dictLookup, hp, hp', ih]

theorem dictLookup_eq_none_of_not_mem_keys (d : List (κ × α)) (k : κ)
    (h : k ∉ dictKeys d) : dictLookup d k = none := by
  induction d with
  | nil => rfl
  | cons p rest ih =>
    rw [dictKeys_cons] at h
    simp only [List.mem_cons, not_or] at h
    have hp : ¬p.1 = k := fun he => h.1 he.symm
    simp [dictLookup, hp, ih h.2]

theorem dictLookup_isSome_of_mem_keys (d : List (κ × α)) (k : κ)
    (h : k ∈ dictKeys d) : (dictLookup d k).isSome := by
  induction d with
  | nil => simp at h
  | cons p rest ih =>
    by_cases hp : p.1 = k
    · simp [dictLookup, hp]
    · rw [dictKeys_cons] at h
      rcases List.mem_cons.mp h with he | hm
      · exact absurd he.symm hp
      · simp [dictLookup, hp, ih hm]

theorem not_mem_keys_of_dictLookup_eq_none (d : List (κ × α)) (k : κ)
    (h : dictLookup d k = none) : k ∉ dictKeys d := by
  intro hmem
  have := dictLookup_isSome_of_mem_keys d k hmem
  rw [h] at this
  simp at this

theorem dictKeys_dictInsert_of_lookup_some (d : List (κ × α)) (k : κ) (v : α)
    (h : (dictLookup d k).isSome) : dictKeys (dictInsert d k v) = dictKeys d := by
  induction d with
  | nil => simp [dictLookup] at h
  | cons p rest ih =>
    by_cases hp : p.1 = k
    · simp [dictInsert, hp]
    · simp only [dictLookup, if_neg hp] at h
      simp [dictInsert, hp, ih h]

theorem dictKeys_dictInsert_of_lookup_none (d : List (κ × α)) (k : κ) (v : α)
    (h : dictLookup d k = none) : dictKeys (dictInsert d k v) = dictKeys d ++ [k] := by
  induction d with
  | nil => simp [dictInsert]
  | cons p rest ih =>
    by_cases hp : p.1 = k
    · simp [dictLookup, hp] at h
    · simp only [dictLookup, if_neg hp] at h
      simp [dictInsert, hp, ih h]

theorem nodup_dictKeys_dictInsert (d : List (κ × α)) (k : κ) (v : α)
    (h : (dictKeys d).Nodup) : (dictKeys (dictInsert d k v)).Nodup := by
  cases hl : dictLookup d k with
  | some w =>
    rw [dictKeys_dictInsert_of_lookup_some d k v (by simp [hl])]
    exact h
  | none =>
    rw [dictKeys_dictInsert_of_lookup_none d k v hl]
    have hk := not_mem_keys_of_dictLookup_eq_none d k hl
    simp [List.nodup_append, h, hk]

theorem dictKeys_dictErase_subset (d : List (κ × α)) (k : κ) :
    dictKeys (dictErase d k) ⊆ dictKeys d := by
  induction d with
  | nil => simp [dictErase]
  | cons p rest ih =>
    by_cases hp : p.1 = k
    · simp only [dictErase, if_pos hp, dictKeys_cons]
      exact ih.trans (List.subset_cons_self _ _)
    · simp only [dictErase, if_neg hp, dictKeys_cons]
      exact List.cons_subset_cons _ ih

theorem nodup_dictKeys_dictErase (d : List (κ × α)) (k : κ)
    (h : (dictKeys d).Nodup) : (dictKeys (dictErase d k)).Nodup := by
  induction d with
  | nil => simp [dictErase]
  | cons p rest ih =>
    rw [dictKeys_cons, List.nodup_cons] at h
    by_cases hp : p.1 = k
    · simp only [dictErase, if_pos hp]
      exact ih h.2
    · simp only [dictErase, if_neg hp, dictKeys_cons, List.nodup_cons]
      exact ⟨fun hmem => h.1 (dictKeys_dictErase_subset rest k hmem), ih h.2⟩

theorem mem_of_dictLookup_eq_some (d : List (κ × α)) (k : κ) (v : α)
    (h : dictLookup d k = some v) : (k, v) ∈ d := by
  induction d with
  | nil => simp [dictLookup] at h
  | cons p rest ih =>
    by_cases hp : p.1 = k
    · simp only [dictLookup, if_pos hp, Option.some.injEq] at h
      have : p = (k, v) := by
        cases p
        simp_all
      rw [this] at *
      exact List.mem_cons_self _ _
    · simp only [dictLookup, if_neg hp] at h
      exact List.mem_cons_of_mem _ (ih h)

theorem dictLookup_eq_some_of_mem_nodup (d : List (κ × α)) (k : κ) (v : α)
    (hnd : (dictKeys d).Nodup) (h : (k, v) ∈ d) : dictLookup d k = some v := by
  induction d with
  | nil => simp at h
  | cons p rest ih =>
    rw [dictKeys_cons, List.nodup_cons] at hnd
    rcases List.mem_cons.mp h with heq | hmem
    · subst heq
      simp [dictLookup]
    · have hk : ¬p.1 = k := by
        intro hp
        apply hnd.1
        rw [hp]
        exact List.mem_map_of_mem Prod.fst hmem
      simp [dictLookup, hk, ih hnd.2 hmem]

end DictLemmas

theorem register_command_applications (st : EngineState) (n : String) (cb : Nat)
    (pa : Option Nat) : (register_command st n cb pa).applications = st.applications := rfl

theorem register_command_commandPool (st : EngineState) (n : String) (cb : Nat)
    (pa : Option Nat) : (register_command st n cb pa).commandPool = st.commandPool := rfl

theorem foldl_register_applications (regs : List RegCall) :
    ∀ st : EngineState,
      (regs.foldl (fun s r => register_command s r.name r.callback none) st).applications
        = st.applications := by
  induction regs with
  | nil => intro st; rfl
  | cons r rest ih =>
    intro st
    rw [List.foldl_cons, ih]
    rfl

theorem foldl_register_commandPool (regs : List RegCall) :
    ∀ st : EngineState,
      (regs.foldl (fun s r => register_command s r.name r.callback none) st).commandPool
        = st.commandPool := by
  induction regs with
  | nil => intro st; rfl
  | cons r rest ih =>
    intro st
    rw [List.foldl_cons, ih]
    rfl

theorem runInitRegs_applications (st : EngineState) (i : Nat) (regs : List RegCall) :
    (runInitRegs st i regs).applications = st.applications := by
  unfold runInitRegs
  rw [foldl_register_applications]

theorem runInitRegs_commandPool (st : EngineState) (i : Nat) (regs : List RegCall) :
    (runInitRegs st i regs).commandPool = st.commandPool := by
  unfold runInitRegs
  rw [foldl_register_commandPool]

theorem poolUpdate_applications (st : EngineState) (n : String) :
    (poolUpdate st n).applications = st.applications := rfl

theorem poolUpdate_commands (st : EngineState) (n : String) :
    (poolUpdate st n).commands = st.commands := rfl

theorem constructApp_commandPool (st : EngineState) (d : AppDecl) :
    (constructApp st d).commandPool = st.commandPool := by
  unfold constructApp
  by_cases hc : d.constructRaises
  · simp [hc]
  · by_cases hi : d.initRaises
    · simp [hc, hi, runInitRegs_commandPool]
    · simp [hc, hi, runInitRegs_commandPool]

theorem constructApp_applications (st : EngineState) (d : AppDecl) (k : String) :
    dictLookup (constructApp st d).applications k =
      if d.constructRaises = false ∧ d.initRaises = false ∧ k = d.instName
      then some d.newAppId else dictLookup st.applications k := by
  unfold constructApp
  by_cases hc : d.constructRaises
  · simp [hc]
  · by_cases hi : d.initRaises
    · simp [hc, hi, runInitRegs_applications]
    · by_cases hk : k = d.instName
      · simp [hc, hi, hk, runInitRegs_applications, dictLookup_dictInsert_self]
      · simp [hc, hi, hk, runInitRegs_applications,
          dictLookup_dictInsert_ne _ _ (fun he => hk he)]

theorem loadAppStep_applications_noreuse (oldCtx : Option Nat) (st : EngineState)
    (d : AppDecl) (k : String) :
    dictLookup (loadAppStep false oldCtx st d).applications k =
      if appLoadOk d = true ∧ k = d.instName then some d.newAppId
      else dictLookup st.applications k := by
  have hpool : poolHit false oldCtx st d = none := rfl
  unfold loadAppStep
  rw [hpool]
  by_cases he : d.existsLocal
  · by_cases hv : d.validationOk
    · simp only [he, hv, Bool.not_true, Bool.false_eq_true, if_false]
      rw [poolUpdate_applications, constructApp_applications]
      simp [appLoadOk, he, hv, and_assoc]
    · simp [he, hv, appLoadOk]
  · simp [he, appLoadOk]

theorem load_foldl_applications_frame (oldCtx : Option Nat) (decls : List AppDecl) :
    ∀ (st : EngineState) (k : String),
      (∀ d ∈ decls, d.instName = k → appLoadOk d = false) →
      dictLookup (decls.foldl (loadAppStep false oldCtx) st).applications k
        = dictLookup st.applications k := by
  induction decls with
  | nil => intro st k _; rfl
  | cons d rest ih =>
    intro st k h
    rw [List.foldl_cons]
    rw [ih _ k (fun d' hd' => h d' (List.mem_cons_of_mem _ hd'))]
    rw [loadAppStep_applications_noreuse]
    by_cases hd : k = d.instName
    · simp [h d (List.mem_cons_self _ _) hd.symm]
    · simp [hd]

theorem load_foldl_applications_success (oldCtx : Option Nat) (decls : List AppDecl) :
    ∀ (st : EngineState) (d : AppDecl),
      (decls.map AppDecl.instName).Nodup → d ∈ decls → appLoadOk d = true →
      dictLookup (decls.foldl (loadAppStep false oldCtx) st).applications d.instName
        = some d.newAppId := by
  induction decls with
  | nil => intro st d _ hmem _; simp at hmem
  | cons e rest ih =>
    intro st d hnd hmem hok
    rw [List.map_cons, List.nodup_cons] at hnd
    rw [List.foldl_cons]
    rcases List.mem_cons.mp hmem with he | hm
    · subst he
      have hnone : ∀ d' ∈ rest, d'.instName = d.instName → appLoadOk d' = false := by
        intro d' hd' hname
        exact absurd (hname ▸ List.mem_map_of_mem AppDecl.instName hd') hnd.1
      rw [load_foldl_applications_frame oldCtx rest _ _ hnone]
      rw [loadAppStep_applications_noreuse]
      simp [hok]
    · exact ih _ d hnd.2 hm hok

theorem dictLookup_restoreAppCommands (pool : List (String × CmdEntry)) (appId : Nat) :
    ∀ (cmds : List (String × CmdEntry)) (k : String),
      (dictKeys pool).Nodup →
      dictLookup (restoreAppCommands pool appId cmds) k =
        match dictLookup pool k with
        | some c => if c.app = some appId then some c else dictLookup cmds k
        | none => dictLookup cmds k := by
  induction pool with
  | nil => intro cmds k _; rfl
  | cons p rest ih =>
    intro cmds k hnd
    rw [dictKeys_cons, List.nodup_cons] at hnd
    have hstep : restoreAppCommands (p :: rest) appId cmds
        = restoreAppCommands rest appId
            (if p.2.app = some appId then dictInsert cmds p.1 p.2 else cmds) := rfl
    rw [hstep, ih _ k hnd.2]
    by_cases hp : p.1 = k
    · subst hp
      rw [dictLookup_eq_none_of_not_mem_keys rest p.1 hnd.1]
      by_cases ha : p.2.app = some appId
      · simp [dictLookup, ha, dictLookup_dictInsert_self]
      · simp [dictLookup, ha]
    · have hacc : dictLookup (if p.2.app = some appId then dictInsert cmds p.1 p.2 else cmds) k
          = dictLookup cmds k := by
        by_cases ha : p.2.app = some appId
        · simp [ha, dictLookup_dictInsert_ne cmds p.2 (fun he => hp he.symm)]
        · simp [ha]
      have hlk : dictLookup (p :: rest) k = dictLookup rest k := by
        simp [dictLookup, hp]
      rw [hacc, hlk]

theorem dictLookup_foldl_dictInsert {κ α : Type} [DecidableEq κ] (l : List (κ × α)) :
    ∀ (init : List (κ × α)) (k : κ),
      (dictKeys l).Nodup →
      dictLookup (l.foldl (fun acc p => dictInsert acc p.1 p.2) init) k =
        match dictLookup l k with
        | some v => some v
        | none => dictLookup init k := by
  induction l with
  | nil => intro init k _; rfl
  | cons p rest ih =>
    intro init k hnd
    rw [dictKeys_cons, List.nodup_cons] at hnd
    rw [List.foldl_cons, ih _ k hnd.2]
    by_cases hp : p.1 = k
    · subst hp
      rw [dictLookup_eq_none_of_not_mem_keys rest p.1 hnd.1]
      simp [dictLookup, dictLookup_dictInsert_self]
    · have hlk : dictLookup (p :: rest) k = dictLookup rest k := by
        simp [dictLookup, hp]
      rw [hlk, dictLookup_dictInsert_ne init p.2 (fun he => hp he.symm)]

theorem nodup_dictKeys_foldl_dictInsert {κ α : Type} [DecidableEq κ] (l : List (κ × α)) :
    ∀ init : List (κ × α), (dictKeys init).Nodup →
      (dictKeys (l.foldl (fun acc p => dictInsert acc p.1 p.2) init)).Nodup := by
  induction l with
  | nil => intro init h; exact h
  | cons p rest ih =>
    intro init h
    rw [List.foldl_cons]
    exact ih _ (nodup_dictKeys_dictInsert _ _ _ h)

theorem restoreAppCommands_nodup (pool : List (String × CmdEntry)) (appId : Nat) :
    ∀ cmds : List (String × CmdEntry), (dictKeys cmds).Nodup →
      (dictKeys (restoreAppCommands pool appId cmds)).Nodup := by
  induction pool with
  | nil => intro cmds h; exact h
  | cons p rest ih =>
    intro cmds h
    have hstep : restoreAppCommands (p :: rest) appId cmds
        = restoreAppCommands rest appId
            (if p.2.app = some appId then dictInsert cmds p.1 p.2 else cmds) := rfl
    rw [hstep]
    apply ih
    by_cases ha : p.2.app = some appId
    · simp only [ha, if_pos rfl]
      exact nodup_dictKeys_dictInsert _ _ _ h
    · simp [ha, h]

theorem collisionRename_commands_nodup (st : EngineState) (n : String)
    (h : (dictKeys st.commands).Nodup) : (dictKeys (collisionRename st n).1).Nodup := by
  cases hl : dictLookup st.commands n with
  | none => simpa [collisionRename, hl] using h
  | some e =>
    cases ha : e.app with
    | none => simpa [collisionRename, hl, ha] using h
    | some o =>
      simp only [collisionRename, hl, ha]
      exact nodup_dictKeys_dictErase _ _ (nodup_dictKeys_dictInsert _ _ _ h)

theorem register_command_commands_nodup (st : EngineState) (n : String) (cb : Nat)
    (pa : Option Nat) (h : (dictKeys st.commands).Nodup) :
    (dictKeys (register_command st n cb pa).commands).Nodup :=
  nodup_dictKeys_dictInsert _ _ _ (collisionRename_commands_nodup st n h)

theorem foldl_register_commands_nodup (regs : List RegCall) :
    ∀ st : EngineState, (dictKeys st.commands).Nodup →
      (dictKeys ((regs.foldl
        (fun s r => register_command s r.name r.callback none) st)).commands).Nodup := by
  induction regs with
  | nil => intro st h; exact h
  | cons r rest ih =>
    intro st h
    rw [List.foldl_cons]
    exact ih _ (register_command_commands_nodup _ _ _ _ h)

theorem runInitRegs_commands_nodup (st : EngineState) (i : Nat) (regs : List RegCall)
    (h : (dictKeys st.commands).Nodup) :
    (dictKeys (runInitRegs st i regs).commands).Nodup := by
  unfold runInitRegs
  exact foldl_register_commands_nodup regs _ h

theorem constructApp_commands_nodup (st : EngineState) (d : AppDecl)
    (h : (dictKeys st.commands).Nodup) :
    (dictKeys (constructApp st d).commands).Nodup := by
  unfold constructApp
  by_cases hc : d.constructRaises
  · simp [hc, h]
  · by_cases hi : d.initRaises
    · simp only [hc, hi, Bool.false_eq_true, if_false, if_pos rfl]
      exact runInitRegs_commands_nodup _ _ _ h
    · simp only [hc, hi, Bool.false_eq_true, if_false]
      exact runInitRegs_commands_nodup _ _ _ h

theorem cmdInv_poolUpdate_construct (st : EngineState) (d : AppDecl) (n : String)
    (h1 : (dictKeys st.commands).Nodup) (h2 : (dictKeys st.commandPool).Nodup) :
    CmdInv (poolUpdate (constructApp st d) n) := by
  have hc : (dictKeys (constructApp st d).commands).Nodup :=
    constructApp_commands_nodup st d h1
  have hp : (constructApp st d).commandPool = st.commandPool :=
    constructApp_commandPool st d
  refine ⟨?_, ?_, ?_⟩
  · rw [poolUpdate_commands]
    exact hc
  · show (dictKeys ((constructApp st d).commands.foldl
      (fun acc p => dictInsert acc p.1 p.2) (constructApp st d).commandPool)).Nodup
    exact nodup_dictKeys_foldl_dictInsert _ _ (hp ▸ h2)
  · intro k c hkc
    rw [poolUpdate_commands] at hkc
    show dictLookup ((constructApp st d).commands.foldl
      (fun acc p => dictInsert acc p.1 p.2) (constructApp st d).commandPool) k = some c
    rw [dictLookup_foldl_dictInsert _ _ _ hc, hkc]

theorem loadAppStep_cmdInv (reuse : Bool) (oldCtx : Option Nat) (st : EngineState)
    (d : AppDecl) (h : CmdInv st) : CmdInv (loadAppStep reuse oldCtx st d) := by
  obtain ⟨h1, h2, h3⟩ := h
  unfold loadAppStep
  cases he : d.existsLocal with
  | false =>
    simp only [he, Bool.not_false, if_true]
    exact ⟨h1, h2, h3⟩
  | true =>
    cases hv : d.validationOk with
    | false =>
      simp [he, hv]
      exact ⟨h1, h2, h3⟩
    | true =>
      simp only [he, hv, Bool.not_true, Bool.false_eq_true, if_false]
      cases hP : poolHit reuse oldCtx st d with
      | none => exact cmdInv_poolUpdate_construct st d d.instName h1 h2
      | some appId =>
        have hr1 : (dictKeys (reuseApp st d appId).commands).Nodup :=
          restoreAppCommands_nodup _ _ _ h1
        have hr3 : ∀ k c, dictLookup (reuseApp st d appId).commands k = some c →
            dictLookup st.commandPool k = some c := by
          intro k c hkc
          rw [show (reuseApp st d appId).commands
            = restoreAppCommands st.commandPool appId st.commands from rfl] at hkc
          rw [dictLookup_restoreAppCommands st.commandPool appId st.commands k h2] at hkc
          rcases hl : dictLookup st.commandPool k with _ | c0
          · rw [hl] at hkc
            have hkc' : dictLookup st.commands k = some c := hkc
            rw [← hl]
            exact h3 k c hkc'
          · rw [hl] at hkc
            have hkc' : (if c0.app = some appId then some c0
                else dictLookup st.commands k) = some c := hkc
            by_cases ha : c0.app = some appId
            · rw [if_pos ha] at hkc'
              exact hkc'
            · rw [if_neg ha] at hkc'
              have hh := h3 k c hkc'
              rw [hl] at hh
              exact hh
        cases hPost : (heapFind st appId).postRaises with
        | true =>
          simp only [hPost, if_true]
          exact cmdInv_poolUpdate_construct (reuseApp st d appId) d d.instName hr1 h2
        | false =>
          simp only [hPost, Bool.false_eq_true, if_false]
          exact ⟨hr1, h2, hr3⟩

theorem load_foldl_cmdInv (reuse : Bool) (oldCtx : Option Nat) (decls : List AppDecl) :
    ∀ st : EngineState, CmdInv st →
      CmdInv (decls.foldl (loadAppStep reuse oldCtx) st) := by
  induction decls with
  | nil => intro st h; exact h
  | cons d rest ih =>
    intro st h
    rw [List.foldl_cons]
    exact ih _ (loadAppStep_cmdInv reuse oldCtx st d h)

/-- C1: on an engine whose command registry is empty, registering "Foo" from
component instance A, then "Foo" from B, then "Foo" from C yields exactly
the three registry entries "A:Foo", "B:Foo" and "C:Foo" (each carrying its
own callback and owner), so no registration silently overwrites an earlier
entry. -/
theorem register_command_three_collisions (pfx : List String) (cb1 cb2 cb3 : Nat) :
    (registerFooThrice pfx cb1 cb2 cb3).commands = [
      ("A:Foo", { callback := cb1, app := some 0, prefixProp := some "A" }),
      ("B:Foo", { callback := cb2, app := some 1, prefixProp := some "B" }),
      ("C:Foo", { callback := cb3, app := some 2, prefixProp := some "C" })] := by
  by_cases h : "Foo" ∈ pfx <;>
    simp [registerFooThrice, register_command, collisionRename, mkState, mkApp, heapFind,
      dictLookup, dictInsert, dictErase, h]

theorem register_command_three_collisions_witness :
    (registerFooThrice [] 1 2 3).commands = [
      ("A:Foo", { callback := 1, app := some 0, prefixProp := some "A" }),
      ("B:Foo", { callback := 2, app := some 1, prefixProp := some "B" }),
      ("C:Foo", { callback := 3, app := some 2, prefixProp := some "C" })] :=
  register_command_three_collisions [] 1 2 3

/-- C2 counterexample: a context change to an identical descriptor reuses
app ra in place -- the same object id 0 is recorded in the active map and
its persisted command X is restored -- but the later app nb registers the
name X in the same load pass, which re-keys the restored entry to ra:X, so
at the end of the change the snapshotted command no longer appears in the
active registry under its snapshotted key X. -/
theorem reused_app_command_rekeyed_by_collision :
    (change_context reuseSt { envId := 1, descriptor := 4, decls := [declRa, declNb] } 9).2
      = none ∧
    dictLookup (change_context reuseSt
        { envId := 1, descriptor := 4, decls := [declRa, declNb] } 9).1.applications "ra"
      = some 0 ∧
    dictLookup (change_context reuseSt
        { envId := 1, descriptor := 4, decls := [declRa, declNb] } 9).1.commands "X"
      = none ∧
    dictLookup (change_context reuseSt
        { envId := 1, descriptor := 4, decls := [declRa, declNb] } 9).1.commands "ra:X"
      = some { callback := 1, app := some 0, prefixProp := some "ra" } := by
  refine ⟨by decide, by decide, by decide, by decide⟩

/-- C2 amended: during a context change, a pooled app that supports context
changes and whose in-place update does not raise is reused as the identical
object -- the pooled object id itself is recorded in the active map -- and
every command persisted for it reappears in the active registry under its
persisted key at the end of its own load iteration; a later registration
in the same pass that collides with such a key can re-key the restored
entry to its owner-prefixed name (see the counterexample), so the keys are
only guaranteed up to later collisions. -/
theorem reused_app_identity_and_commands_restored (st : EngineState) (d : AppDecl)
    (oc : Nat) (appId : Nat)
    (h1 : d.existsLocal = true) (h2 : d.validationOk = true)
    (h3 : poolHit true (some oc) st d = some appId)
    (h4 : (heapFind st appId).contextChangeAllowed = true)
    (h5 : (heapFind st appId).postRaises = false)
    (h6 : (dictKeys st.commandPool).Nodup) :
    dictLookup (loadAppStep true (some oc) st d).applications d.instName = some appId ∧
    ∀ k c, dictLookup st.commandPool k = some c → c.app = some appId →
      dictLookup (loadAppStep true (some oc) st d).commands k = some c := by
  unfold loadAppStep
  rw [h3]
  simp only [h1, h2, Bool.not_true, Bool.false_eq_true, if_false, h5]
  constructor
  · exact dictLookup_dictInsert_self _ _ _
  · intro k c hkc hca
    show dictLookup (restoreAppCommands st.commandPool appId st.commands) k = some c
    rw [dictLookup_restoreAppCommands st.commandPool appId st.commands k h6, hkc]
    simp [hca]

theorem reused_app_identity_and_commands_restored_witness :
    dictLookup (loadAppStep true (some 0) reuseSt declRa).applications "ra" = some 0 ∧
    dictLookup (loadAppStep true (some 0) reuseSt declRa).commands "X" = some cmdX := by
  have h := reused_app_identity_and_commands_restored reuseSt declRa 0 0 rfl rfl
    (by decide) (by decide) (by decide) (by decide)
  exact ⟨h.1, h.2 "X" cmdX (by decide) (by decide)⟩

/-- C3: a context change whose target context resolves to a different
engine descriptor fails with TankContextChangeNotSupportedError and leaves
the engine state -- environment, context, active app map and command
registry -- untouched. -/
theorem change_context_diff_descriptor_rejected (st : EngineState)
    (res : EnvResolution) (newCtx : Nat) (h : res.descriptor ≠ st.descriptor) :
    change_context st res newCtx = (st, some PyErr.contextChangeNotSupported) := by
  by_cases hcc : st.contextChangeAllowed <;> simp [change_context, hcc, h]

theorem change_context_diff_descriptor_rejected_witness :
    change_context mkState { envId := 0, descriptor := 1, decls := [] } 5
      = (mkState, some PyErr.contextChangeNotSupported) :=
  change_context_diff_descriptor_rejected mkState { envId := 0, descriptor := 1, decls := [] } 5
    (by decide)

/-- C4 counterexample: destroy on an engine whose single active app's
destroy_app raises lets the exception escape and returns with the global
current-engine slot still occupied -- set_current_engine(None) is never
reached -- contradicting the claim that the slot is always cleared and the
failing destructor skipped. -/
theorem destroy_raising_destructor_keeps_slot :
    destroy destroyFailSt (some 7) = (some 7, some PyErr.appException) := by
  decide

/-- C4 amended: destroy clears the global current-engine slot provided no
active app's destructor raises; a raising destructor instead escapes
destroy before the slot-clearing step is reached. -/
theorem destroy_clears_slot_when_destructors_ok (st : EngineState) (slot : Option Nat)
    (h : ∀ p ∈ st.applications, (heapFind st p.2).destroyRaises = false) :
    destroy st slot = (none, none) := by
  have hany : (st.applications.any (fun p => (heapFind st p.2).destroyRaises)) = false := by
    rw [List.any_eq_false]
    intro p hp
    simp [h p hp]
  simp [destroy, hany]

theorem destroy_clears_slot_when_destructors_ok_witness :
    destroy mkState (some 3) = (none, none) :=
  destroy_clears_slot_when_destructors_ok mkState (some 3) (by simp [mkState])

/-- C5 counterexample: with the precondition checks passing (context
changes allowed, identical descriptor), an exception raised inside one
app's own pre_context_change hook escapes change_context uncaught, instead
of being caught and logged as the claim states. -/
theorem change_context_pre_hook_exception_escapes :
    change_context preHookFailSt { envId := 1, descriptor := 4, decls := [] } 9
      = (preHookFailSt, some PyErr.appException) := by
  decide

/-- C5 amended: an exception in a component's own pre-change hook escapes
change_context uncaught (see the counterexample); once the precondition
checks and all pre-change hooks have passed, nothing raised inside the
transition escapes -- in particular, a component whose post-change hook
raises during the in-place update is caught, logged and rebuilt through
the construction path, ending up loaded, and the pass continues for all
other components. -/
theorem change_context_absorbs_post_hook_failures (st : EngineState)
    (res : EnvResolution) (newCtx : Nat)
    (h1 : st.contextChangeAllowed = true)
    (h2 : res.descriptor = st.descriptor)
    (h3 : ∀ i ∈ poolApps st, (heapFind st i).preRaises = false) :
    (change_context st res newCtx).2 = none ∧
    ∀ (st2 : EngineState) (d : AppDecl) (oc : Nat) (appId : Nat),
      poolHit true (some oc) st2 d = some appId →
      d.existsLocal = true → d.validationOk = true →
      (heapFind st2 appId).postRaises = true →
      d.constructRaises = false → d.initRaises = false →
      dictLookup (loadAppStep true (some oc) st2 d).applications d.instName
        = some d.newAppId := by
  constructor
  · have hany : ((poolApps st).any (fun i => (heapFind st i).preRaises)) = false := by
      rw [List.any_eq_false]
      intro i hi
      simp [h3 i hi]
    simp [change_context, h1, h2, hany]
  · intro st2 d oc appId hpool he hv hpost hc hi
    unfold loadAppStep
    rw [hpool]
    simp only [he, hv, Bool.not_true, Bool.false_eq_true, if_false, hpost, if_true]
    rw [poolUpdate_applications, constructApp_applications]
    simp [hc, hi]

theorem change_context_absorbs_post_hook_failures_witness :
    (change_context reuseSt { envId := 1, descriptor := 4, decls := [] } 9).2 = none :=
  (change_context_absorbs_post_hook_failures reuseSt
    { envId := 1, descriptor := 4, decls := [] } 9 rfl rfl (by decide)).1

/-- C6: with the over-indented block of _start_engine restored (the file as
written does not parse), starting an engine while another is current fails
in the guard of lines 2307-2310 -- a plain TankError raised before
anything is mutated -- leaving the global current-engine slot, and hence
the running engine, untouched. -/
theorem start_engine_already_running (slot : Option Nat) (inp : StartInput) (e : Nat)
    (h : slot = some e) :
    start_engine_model slot inp = (some e, some PyErr.tankError) := by
  subst h
  rfl

theorem start_engine_already_running_witness :
    start_engine_model (some 2) { existsLocal := true, newEngineId := 5 }
      = (some 2, some PyErr.tankError) :=
  start_engine_already_running (some 2) { existsLocal := true, newEngineId := 5 } 2 rfl

/-- C7 counterexample: an app whose init_app registers a command and then
raises is excluded from the active app map, but the command it registered
before failing stays in the active command registry -- the failed
component does contribute registry entries, contrary to the claim. -/
theorem failed_app_leaves_registered_command :
    dictLookup (load_apps false none [declFail] mkState).applications "ib" = none ∧
    dictLookup (load_apps false none [declFail] mkState).commands "Cmd"
      = some { callback := 5, app := some 3, prefixProp := none } := by
  refine ⟨by decide, by decide⟩

/-- C7 amended: a declared component whose initialization raises is absent
from the active component map and all remaining declared components that
load cleanly are still loaded; however (see the counterexample) commands
such a component registered before failing remain in the registry.  Shown
for the construction path taken at engine start; during a context change a
non-reused component goes through the same path. -/
theorem failed_component_absent_others_still_load (oldCtx : Option Nat)
    (decls : List AppDecl) (st : EngineState) (d : AppDecl)
    (hnd : (decls.map AppDecl.instName).Nodup)
    (hmem : d ∈ decls) (hfail : d.initRaises = true) :
    dictLookup (load_apps false oldCtx decls st).applications d.instName = none ∧
    ∀ d' ∈ decls, appLoadOk d' = true →
      dictLookup (load_apps false oldCtx decls st).applications d'.instName
        = some d'.newAppId := by
  constructor
  · unfold load_apps
    rw [load_foldl_applications_frame oldCtx decls _ _ ?side]
    · rfl
    case side =>
      intro d' hd' hname
      have hdd : d' = d := List.inj_on_of_nodup_map hnd hd' hmem hname
      subst hdd
      simp [appLoadOk, hfail]
  · intro d' hd' hok
    unfold load_apps
    exact load_foldl_applications_success oldCtx decls _ d' hnd hd' hok

theorem failed_component_absent_others_still_load_witness :
    dictLookup (load_apps false none [declFail, declX] mkState).applications "ib" = none ∧
    dictLookup (load_apps false none [declFail, declX] mkState).applications "ix"
      = some 0 := by
  have h := failed_component_absent_others_still_load none [declFail, declX] mkState declFail
    (by decide) (by decide) (by decide)
  exact ⟨h.1, h.2 declX (by decide) (by decide)⟩

/-- C8: after a load pass over the two apps ix (at px) and iy (at py), the
persistent application pool holds an entry under the key (px, iy) whose
stored app is the object whose own instance name is ix: the pool-update
loop keys every already-active app by the instance name of the app
currently being processed, so a pool entry's key does not identify the
instance stored under it. -/
theorem application_pool_miskeys_earlier_app :
    dictLookup ((dictLookup (load_apps false none [declX, declY] mkState).applicationPool
        "px").getD []) "iy" = some 0 ∧
    (heapFind (load_apps false none [declX, declY] mkState) 0).instanceName = "ix" ∧
    dictLookup (load_apps false none [declX, declY] mkState).applications "iy" = some 1 := by
  refine ⟨by decide, by decide, by decide⟩

/-- C9: get_matching_commands with a selector that matches no registered
command evaluates self._engine.log_warning on an Engine that has no
attribute named _engine, so the call raises AttributeError instead of
logging a warning and returning normally: here a single unmatched selector
against an empty registry errors out. -/
theorem get_matching_commands_unmatched_selector_raises :
    get_matching_commands mkState [⟨"A", "X"⟩]
      = Except.error PyErr.attributeError := rfl

/-- C10: whenever a load pass completes -- at engine start and after every
context change -- every entry of the active command registry is also
present in the persistent command pool under the same name with the same
entry, so nothing active at the end of a pass can be lost from the pool. -/
theorem load_apps_commands_in_pool (reuse : Bool) (oldCtx : Option Nat)
    (decls : List AppDecl) (st : EngineState)
    (hnd : (dictKeys st.commandPool).Nodup) (k : String) (c : CmdEntry)
    (h : dictLookup (load_apps reuse oldCtx decls st).commands k = some c) :
    dictLookup (load_apps reuse oldCtx decls st).commandPool k = some c := by
  have hinv : CmdInv { st with applications := [], commands := [] } := by
    refine ⟨by simp, hnd, ?_⟩
    intro k c hc
    simp [dictLookup] at hc
  exact (load_foldl_cmdInv reuse oldCtx decls _ hinv).2.2 k c h

theorem load_apps_commands_in_pool_witness :
    dictLookup (load_apps false none [declFail] mkState).commandPool "Cmd"
      = some { callback := 5, app := some 3, prefixProp := none } :=
  load_apps_commands_in_pool false none [declFail] mkState (by simp [mkState, dictKeys])
    "Cmd" { callback := 5, app := some 3, prefixProp := none } (by decide)

end TkCore
